import Mathlib

/-!
Verification of the `gitlogue` animation engine and syntax highlighter
against its natural-language specification.

Shallow embedding conventions:
* A Rust `String` is modelled as a `List Char`; byte-indexed operations
  (`String::insert`, `String::remove`) are modelled over UTF-8 byte offsets
  computed with `Char.utf8Size`, and a Rust panic is modelled as `none`.
* `std::time::Instant`-based fields of `AnimationEngine` (blink timer, step
  cadence timer, step-level pause deadline) are abstracted away: `tick` is
  modelled at an instant where any pending pause and the per-step interval
  have elapsed, which is the only path on which playback state changes.
-/

set_option maxRecDepth 4000

/-- A Rust `String` / `&str`, modelled as its list of characters. -/
abbrev RStr := List Char

/-- Total UTF-8 byte length of a string, as Rust `str::len`. -/
def rustByteLen (s : RStr) : Nat := (s.map Char.utf8Size).sum

/-- Model of Rust `String::insert(idx, ch)`: insert `ch` at byte offset
`idx`; `none` models the panic when `idx` is past the end of the string or
does not lie on a character boundary. -/
def insertAtByte : RStr → Nat → Char → Option RStr
  | l, 0, ch => some (ch :: l)
  | [], _ + 1, _ => none
  | c :: rest, idx, ch =>
    if idx < c.utf8Size then none
    else (insertAtByte rest (idx - c.utf8Size) ch).map (c :: ·)

/-- Model of Rust `String::remove(idx)` restricted to `idx < len` (the caller
guards that): remove the character at byte offset `idx`; `none` models the
panic when `idx` does not lie on a character boundary. -/
def removeAtByte : RStr → Nat → Option RStr
  | [], _ => none
  | c :: rest, idx =>
    if idx = 0 then some rest
    else if idx < c.utf8Size then none
    else (removeAtByte rest (idx - c.utf8Size)).map (c :: ·)

/-- Model of Rust `str::split_inclusive('\n')`: split into pieces, each piece
keeping its terminating newline; an empty string yields no pieces. -/
def splitInclusiveNl : RStr → List RStr
  | [] => []
  | c :: rest =>
    if c = '\n' then [c] :: splitInclusiveNl rest
    else
      match splitInclusiveNl rest with
      | [] => [[c]]
      | p :: ps => (c :: p) :: ps

/-- Model of Rust `str::strip_suffix` with a one-character pattern. -/
def stripSuffixChar (l : RStr) (c : Char) : Option RStr :=
  match l.reverse with
  | [] => none
  | d :: t => if d = c then some t.reverse else none

/-- Model of the map applied by Rust `str::lines` to each inclusive piece:
strip one trailing `'\n'`, and if one was stripped also strip one trailing
`'\r'`. -/
def linesMap (l : RStr) : RStr :=
  match stripSuffixChar l '\n' with
  | none => l
  | some l1 =>
    match stripSuffixChar l1 '\r' with
    | none => l1
    | some l2 => l2

/-- Model of Rust `str::lines`. -/
def rustLines (s : RStr) : List RStr :=
  (splitInclusiveNl s).map linesMap

/-- Model of Rust `[String]::join("\n")`. -/
def joinNl : List RStr → RStr
  | [] => []
  | [l] => l
  | l :: ls => l ++ '\n' :: joinNl ls

/-- Model of Rust `Vec::insert(i, a)` for `i ≤ len` (the caller guards
that). -/
def listInsertAt {α : Type} (l : List α) (i : Nat) (a : α) : List α :=
  l.take i ++ a :: l.drop i

/-- `src/animation.rs`: the simulated editor buffer. -/
structure EditorBuffer where
  lines : List RStr
  cursor_line : Nat
  cursor_col : Nat
  scroll_offset : Nat
deriving Repr, DecidableEq

namespace EditorBuffer

/-- `EditorBuffer::new`. -/
def new : EditorBuffer :=
  { lines := [[]], cursor_line := 0, cursor_col := 0, scroll_offset := 0 }

/-- `EditorBuffer::from_content`. -/
def from_content (content : RStr) : EditorBuffer :=
  { lines := if content = [] then [[]] else rustLines content
    cursor_line := 0, cursor_col := 0, scroll_offset := 0 }

/-- `EditorBuffer::insert_char`: resizes the line list up to `line + 1` when
`line` is out of range, then inserts into that line at byte offset `col`;
`none` models the panic of `String::insert` on a bad offset. -/
def insert_char (b : EditorBuffer) (line col : Nat) (ch : Char) :
    Option EditorBuffer :=
  let ls := if b.lines.length ≤ line then
      b.lines ++ List.replicate (line + 1 - b.lines.length) [] else b.lines
  (insertAtByte (ls.getD line []) col ch).map fun l =>
    { b with lines := ls.set line l }

/-- `EditorBuffer::delete_char`: a no-op unless `line` is in range and `col`
is below the line's byte length; `none` models the panic of `String::remove`
on a non-boundary offset. -/
def delete_char (b : EditorBuffer) (line col : Nat) : Option EditorBuffer :=
  if line < b.lines.length then
    if col < rustByteLen (b.lines.getD line []) then
      (removeAtByte (b.lines.getD line []) col).map fun l =>
        { b with lines := b.lines.set line l }
    else some b
  else some b

/-- `EditorBuffer::insert_line`: resizes the line list up to `line` when
`line` is past the end, then inserts `content` at index `line`. -/
def insert_line (b : EditorBuffer) (line : Nat) (content : RStr) :
    EditorBuffer :=
  let ls := if b.lines.length < line then
      b.lines ++ List.replicate (line - b.lines.length) [] else b.lines
  { b with lines := listInsertAt ls line content }

/-- `EditorBuffer::delete_line`: removes the line when in range, then
restores a single empty line if the list became empty. -/
def delete_line (b : EditorBuffer) (line : Nat) : EditorBuffer :=
  let ls := if line < b.lines.length then b.lines.eraseIdx line else b.lines
  { b with lines := if ls = [] then [[]] else ls }

/-- `EditorBuffer::get_content`. -/
def get_content (b : EditorBuffer) : RStr := joinNl b.lines

end EditorBuffer

/-- Modelled from the spec: `LineChange` classification (`crate::git` is not
among the provided sources): `Context` — unchanged; `Addition` — present only
in the new version; `Deletion` — present only in the old version. -/
inductive LineChangeType where
  | Context
  | Addition
  | Deletion
deriving Repr, DecidableEq

/-- Modelled from the spec: one line inside a hunk — a classification and,
for additions, the literal text content. -/
structure LineChange where
  change_type : LineChangeType
  content : RStr
deriving Repr, DecidableEq

/-- Modelled from the spec: a contiguous block of change within a file — the
starting line number in the pre-change file and an ordered list of
`LineChange`. -/
structure DiffHunk where
  old_start : Nat
  lines : List LineChange
deriving Repr, DecidableEq

/-- Modelled from the spec: one modified file — the pre-change full content
(absent if newly created) and an ordered list of `DiffHunk`. -/
structure FileChange where
  old_content : Option RStr
  hunks : List DiffHunk
deriving Repr, DecidableEq

/-- Modelled from the spec: the resolved set of changes for one commit. -/
structure CommitMetadata where
  changes : List FileChange
deriving Repr, DecidableEq

/-- `src/animation.rs`: one atomic playback action. -/
inductive AnimationStep where
  | InsertChar (line col : Nat) (ch : Char)
  | DeleteChar (line col : Nat)
  | InsertLine (line : Nat) (content : RStr)
  | DeleteLine (line : Nat)
  | MoveCursor (line col : Nat)
  | Pause (duration_ms : Nat)
  | SwitchFile (file_index : Nat) (content : RStr)
deriving Repr, DecidableEq

/-- `src/animation.rs`: the animation state machine states. -/
inductive AnimationState where
  | Idle
  | Playing
  | Paused
  | Finished
deriving Repr, DecidableEq

/-- `src/animation.rs`: the animation engine.  The `Instant`-valued timing
fields (`last_update`, `pause_until`, `cursor_blink_timer`) and the derived
`cursor_visible` flag are abstracted away (see the file header). -/
structure AnimationEngine where
  buffer : EditorBuffer
  state : AnimationState
  steps : List AnimationStep
  current_step : Nat
  speed_ms : Nat
  viewport_height : Nat
  current_file_index : Nat
deriving Repr, DecidableEq

namespace AnimationEngine

/-- `AnimationEngine::new`. -/
def new (speed_ms : Nat) : AnimationEngine :=
  { buffer := EditorBuffer.new
    state := AnimationState.Idle
    steps := []
    current_step := 0
    speed_ms := speed_ms
    viewport_height := 20
    current_file_index := 0 }

/-- `AnimationEngine::set_viewport_height`. -/
def set_viewport_height (e : AnimationEngine) (height : Nat) :
    AnimationEngine :=
  { e with viewport_height := height }

/-- The loop body of `AnimationEngine::generate_steps_for_hunk`, acting on
the state `(emitted steps, current_old_line, current_new_line, cursor_line)`
for one classified line. -/
def hunk_line_step (acc : List AnimationStep × Nat × Nat × Nat)
    (lc : LineChange) : List AnimationStep × Nat × Nat × Nat :=
  let (steps, oldL, newL, _cur) := acc
  match lc.change_type with
  | LineChangeType.Deletion =>
      (steps ++ [AnimationStep.DeleteLine oldL, AnimationStep.Pause 300],
       oldL, newL, oldL)
  | LineChangeType.Addition =>
      let charSteps := lc.content.enum.map fun ic =>
        AnimationStep.InsertChar newL ic.1 ic.2
      (steps ++ AnimationStep.InsertLine newL [] :: charSteps
             ++ [AnimationStep.Pause 200],
       oldL + 1, newL + 1, newL)
  | LineChangeType.Context =>
      let mv := if newL ≠ acc.2.2.2 then
          [AnimationStep.MoveCursor newL 0, AnimationStep.Pause 50] else []
      (steps ++ mv, oldL + 1, newL + 1, newL + 1)

/-- `AnimationEngine::generate_steps_for_hunk`: returns the emitted steps and
the final cursor line. -/
def generate_steps_for_hunk (hunk : DiffHunk) (start_line : Nat) :
    List AnimationStep × Nat :=
  let r := hunk.lines.foldl hunk_line_step
    ([], hunk.old_start, hunk.old_start, start_line)
  (r.1, r.2.2.2)

/-- `AnimationEngine::generate_cursor_movement`: returns the emitted steps
and the resulting cursor line (`to_line`). -/
def generate_cursor_movement (fromL toL : Nat) :
    List AnimationStep × Nat :=
  if fromL = toL then ([], toL)
  else if fromL < toL then
    (((List.range' (fromL + 1) (toL - fromL)).flatMap fun l =>
        [AnimationStep.MoveCursor l 0, AnimationStep.Pause 50])
      ++ [AnimationStep.Pause 300], toL)
  else
    (((List.range' toL (fromL - toL)).reverse.flatMap fun l =>
        [AnimationStep.MoveCursor l 0, AnimationStep.Pause 50])
      ++ [AnimationStep.Pause 300], toL)

/-- `AnimationEngine::generate_steps_for_file`: per hunk, cursor movement to
the hunk's start, the hunk's steps, then a 1500 ms pause. -/
def generate_steps_for_file (change : FileChange) : List AnimationStep :=
  (change.hunks.foldl (fun (acc : List AnimationStep × Nat) hunk =>
      let mv := generate_cursor_movement acc.2 hunk.old_start
      let hk := generate_steps_for_hunk hunk mv.2
      (acc.1 ++ mv.1 ++ hk.1 ++ [AnimationStep.Pause 1500], hk.2))
    ([], 0)).1

/-- The step list built by `AnimationEngine::load_commit`: the body of the
`for (index, change)` loop, followed by the final 3000 ms pause. -/
def load_commit_steps (metadata : CommitMetadata) : List AnimationStep :=
  (metadata.changes.enum.flatMap fun ic =>
    AnimationStep.SwitchFile ic.1 (ic.2.old_content.getD [])
      :: AnimationStep.Pause 1000
      :: generate_steps_for_file ic.2
      ++ (if ic.1 < metadata.changes.length - 1 then
            [AnimationStep.Pause 2000] else []))
  ++ [AnimationStep.Pause 3000]

/-- `AnimationEngine::load_commit`. -/
def load_commit (e : AnimationEngine) (metadata : CommitMetadata) :
    AnimationEngine :=
  { e with
    steps := load_commit_steps metadata
    current_step := 0
    state := AnimationState.Playing
    current_file_index := 0
    buffer :=
      match metadata.changes.head? with
      | some change =>
        match change.old_content with
        | some old_content => EditorBuffer.from_content old_content
        | none => EditorBuffer.new
      | none => e.buffer }

/-- `AnimationEngine::update_scroll`. -/
def update_scroll (e : AnimationEngine) : AnimationEngine :=
  if e.viewport_height = 0 then e
  else
    let cursor_line := e.buffer.cursor_line
    let total_lines := e.buffer.lines.length
    let half_viewport := e.viewport_height / 2
    let target_offset :=
      if cursor_line < half_viewport then 0
      else if total_lines ≤ cursor_line + half_viewport then
        total_lines - e.viewport_height
      else cursor_line - half_viewport
    { e with buffer := { e.buffer with scroll_offset := target_offset } }

/-- `AnimationEngine::execute_step` (including the trailing
`update_scroll`); `none` models a panic inside a buffer operation. -/
def execute_step (e : AnimationEngine) (step : AnimationStep) :
    Option AnimationEngine :=
  (match step with
  | AnimationStep.InsertChar line col ch =>
      (e.buffer.insert_char line col ch).map fun (b : EditorBuffer) =>
        { e with buffer := { b with cursor_line := line,
                                    cursor_col := col + 1 } }
  | AnimationStep.DeleteChar line col =>
      (e.buffer.delete_char line col).map fun (b : EditorBuffer) =>
        { e with buffer := { b with cursor_line := line,
                                    cursor_col := col } }
  | AnimationStep.InsertLine line content =>
      let b := e.buffer.insert_line line content
      some { e with buffer :=
        { b with cursor_line := line, cursor_col := 0 } }
  | AnimationStep.DeleteLine line =>
      let b := e.buffer.delete_line line
      some { e with buffer :=
        { b with cursor_line := line, cursor_col := 0 } }
  | AnimationStep.MoveCursor line col =>
      some { e with buffer :=
        { e.buffer with cursor_line := line, cursor_col := col } }
  | AnimationStep.Pause _duration_ms => some e
  | AnimationStep.SwitchFile file_index content =>
      some { e with current_file_index := file_index,
                    buffer := EditorBuffer.from_content content }
  ).map update_scroll

/-- `AnimationEngine::tick`, at an instant where any pending pause and the
per-step cadence interval have elapsed (the timing fields are abstracted; on
every other path `tick` leaves the playback state untouched).  `none` models
a panic while executing a step. -/
def tick (e : AnimationEngine) : Option AnimationEngine :=
  if e.state ≠ AnimationState.Playing then some e
  else
    match e.steps[e.current_step]? with
    | none => some { e with state := AnimationState.Finished }
    | some step =>
        (execute_step e step).map fun e' =>
          { e' with current_step := e.current_step + 1 }

/-- `AnimationEngine::is_finished`. -/
def is_finished (e : AnimationEngine) : Bool :=
  e.state = AnimationState.Finished

/-- Iterated `tick` (`n` driver-loop iterations). -/
def run_ticks : Nat → AnimationEngine → Option AnimationEngine
  | 0, e => some e
  | n + 1, e => (tick e).bind (run_ticks n)

end AnimationEngine

/-- `src/syntax/mod.rs`: the closed set of lexical categories. -/
inductive TokenType where
  | Comment
  | Constant
  | Function
  | Keyword
  | Label
  | Number
  | Operator
  | Parameter
  | Property
  | Punctuation
  | String
  | Type
  | Variable
deriving Repr, DecidableEq

/-- `src/syntax/mod.rs`: a highlight span — a half-open byte range plus a
token type. -/
structure HighlightSpan where
  start : Nat
  stop : Nat
  token_type : TokenType
deriving Repr, DecidableEq

/-- `Highlighter::highlight`: `capture_name.split('.').next()` — the portion
of the capture name before the first `'.'` (the whole name when it contains
none). -/
def base_name (capture_name : RStr) : RStr :=
  capture_name.takeWhile (fun c => c ≠ '.')

/-- `Highlighter::highlight`: the fixed `match base_name` lookup table;
`none` models `continue` (the skip arm and the catch-all arm). -/
def token_type_for_base (n : RStr) : Option TokenType :=
  if n = "annotation".toList ∨ n = "attribute".toList ∨
     n = "decorator".toList then some TokenType.Keyword
  else if n = "boolean".toList then some TokenType.Constant
  else if n = "character".toList then some TokenType.String
  else if n = "class".toList ∨ n = "constructor".toList ∨
     n = "enum".toList ∨ n = "interface".toList ∨ n = "struct".toList ∨
     n = "trait".toList then some TokenType.Type
  else if n = "comment".toList then some TokenType.Comment
  else if n = "conditional".toList ∨ n = "exception".toList ∨
     n = "include".toList ∨ n = "repeat".toList ∨
     n = "storageclass".toList then some TokenType.Keyword
  else if n = "constant".toList then some TokenType.Constant
  else if n = "delimiter".toList then some TokenType.Punctuation
  else if n = "escape".toList then some TokenType.Operator
  else if n = "field".toList then some TokenType.Property
  else if n = "float".toList then some TokenType.Number
  else if n = "function".toList then some TokenType.Function
  else if n = "identifier".toList then some TokenType.Variable
  else if n = "keyword".toList then some TokenType.Keyword
  else if n = "label".toList then some TokenType.Label
  else if n = "macro".toList ∨ n = "method".toList then
    some TokenType.Function
  else if n = "module".toList ∨ n = "namespace".toList then
    some TokenType.Type
  else if n = "number".toList then some TokenType.Number
  else if n = "operator".toList then some TokenType.Operator
  else if n = "parameter".toList then some TokenType.Parameter
  else if n = "property".toList then some TokenType.Property
  else if n = "punctuation".toList then some TokenType.Punctuation
  else if n = "regexp".toList then some TokenType.String
  else if n = "special".toList then some TokenType.Operator
  else if n = "string".toList then some TokenType.String
  else if n = "tag".toList then some TokenType.Type
  else if n = "text".toList then some TokenType.String
  else if n = "type".toList then some TokenType.Type
  else if n = "variable".toList then some TokenType.Variable
  else none

/-- The per-capture body of `Highlighter::highlight`'s query loop: the span
pushed for a capture with the given name and node byte range, or `none` when
the capture is skipped. -/
def capture_span (capture_name : RStr) (start_byte end_byte : Nat) :
    Option HighlightSpan :=
  (token_type_for_base (base_name capture_name)).map fun t =>
    { start := start_byte, stop := end_byte, token_type := t }

/-- The skip set named by the spec for internal/bookkeeping captures. -/
def skip_captures : List RStr :=
  ["__name__".toList, "_name".toList, "_op".toList, "_type".toList,
   "embedded".toList, "none".toList, "spell".toList]

/-- Spec-side ("between consecutive elements, not after the last") joining
of step blocks with a separator, for the refinement statement of the
`load_commit` step layout. -/
def joinWithSep (sep : List AnimationStep) :
    List (List AnimationStep) → List AnimationStep
  | [] => []
  | [b] => b
  | b :: bs => b ++ sep ++ joinWithSep sep bs

/-- Spec-side block of steps for one file, as the claim describes it: the
switch-to-file step with the file's starting content, a 1000 ms pause, then
the file's hunk steps. -/
def file_block (index : Nat) (change : FileChange) : List AnimationStep :=
  AnimationStep.SwitchFile index (change.old_content.getD [])
    :: AnimationStep.Pause 1000
    :: AnimationEngine.generate_steps_for_file change

/-- Spec-side step layout claimed for `load_commit`: per-file blocks joined
by a 2000 ms pause, then one final 3000 ms pause. -/
def claimed_steps (metadata : CommitMetadata) : List AnimationStep :=
  joinWithSep [AnimationStep.Pause 2000]
    (metadata.changes.enum.map fun ic => file_block ic.1 ic.2)
  ++ [AnimationStep.Pause 3000]

/-- `true` exactly on move-cursor steps. -/
def is_move_cursor : AnimationStep → Bool
  | AnimationStep.MoveCursor _ _ => true
  | _ => false

/-- `true` exactly on insert-character steps. -/
def is_insert_char : AnimationStep → Bool
  | AnimationStep.InsertChar _ _ _ => true
  | _ => false

/-- Spec-side list of lines visited by cursor movement: ascending when
moving down, descending when moving up, including the final line. -/
def visited_lines (fromL toL : Nat) : List Nat :=
  if fromL < toL then List.range' (fromL + 1) (toL - fromL)
  else (List.range' toL (fromL - toL)).reverse

/-- Concrete engine used for the C4 scroll examples: 100 buffer lines,
viewport height 20, cursor at the given line. -/
def c4_engine (cursor : Nat) : AnimationEngine :=
  { AnimationEngine.new 50 with
      buffer := { lines := List.replicate 100 [], cursor_line := cursor,
                  cursor_col := 0, scroll_offset := 0 } }

/-- Engine exhibiting the viewport-height-0 early return of
`update_scroll`. -/
def c4_cex_engine : AnimationEngine :=
  { AnimationEngine.new 50 with
      viewport_height := 0
      buffer := { lines := [[]], cursor_line := 0, cursor_col := 0,
                  scroll_offset := 5 } }

/-- Engine with a non-default buffer, exhibiting the no-changes behaviour of
`load_commit`. -/
def c1_cex_engine : AnimationEngine :=
  { AnimationEngine.new 50 with buffer := EditorBuffer.from_content ['x'] }

/-- The single-file, single-hunk, single-addition-of-`"hello"` commit from
the claim. -/
def m_hello : CommitMetadata :=
  ⟨[⟨none, [⟨0, [⟨LineChangeType.Addition, "hello".toList⟩]⟩]⟩]⟩

/-- Engine already in the `Finished` state (used as the C5 witness
input). -/
def c5_fin_engine : AnimationEngine :=
  { AnimationEngine.new 50 with state := AnimationState.Finished }

/-- A commit whose generated step sequence itself panics during playback:
the addition line `"éa"` produces insert-character steps with
character-counted columns, but `String::insert` consumes them as byte
offsets, so the second insertion lands inside the two-byte `'é'`. -/
def m_panic : CommitMetadata :=
  ⟨[⟨none, [⟨0, [⟨LineChangeType.Addition, "éa".toList⟩]⟩]⟩]⟩

/-- Whether the string contains a carriage return immediately followed by a
line feed (the line-ending form collapsed by `str::lines`). -/
def hasCRLF : RStr → Bool
  | c1 :: c2 :: rest => (c1 == '\r' && c2 == '\n') || hasCRLF (c2 :: rest)
  | _ => false

lemma hasCRLF_tail {c : Char} {rest : RStr} (h : hasCRLF (c :: rest) = false) :
    hasCRLF rest = false := by
  cases rest with
  | nil => rfl
  | cons r rs =>
    simp only [hasCRLF, Bool.or_eq_false_iff] at h
    exact h.2

lemma splitInclusiveNl_cons_nl (rest : RStr) :
    splitInclusiveNl ('\n' :: rest) = ['\n'] :: splitInclusiveNl rest := by
  simp [splitInclusiveNl]

lemma splitInclusiveNl_cons_ne (c : Char) (rest : RStr) (hc : ¬ c = '\n') :
    splitInclusiveNl (c :: rest) =
      match splitInclusiveNl rest with
      | [] => [[c]]
      | p :: ps => (c :: p) :: ps := by
  simp [splitInclusiveNl, hc]

lemma splitInclusiveNl_cons (c : Char) (rest : RStr) :
    ∃ p ps, splitInclusiveNl (c :: rest) = p :: ps ∧ p.head? = some c ∧
      p ≠ [] := by
  by_cases hc : c = '\n'
  · subst hc
    exact ⟨['\n'], splitInclusiveNl rest, splitInclusiveNl_cons_nl rest,
      rfl, by simp⟩
  · rw [splitInclusiveNl_cons_ne c rest hc]
    match splitInclusiveNl rest with
    | [] => exact ⟨[c], [], rfl, rfl, by simp⟩
    | p :: ps => exact ⟨c :: p, ps, rfl, rfl, by simp⟩

lemma stripSuffixChar_nil (c : Char) : stripSuffixChar [] c = none := rfl

lemma stripSuffixChar_concat (L : RStr) (d c : Char) :
    stripSuffixChar (L ++ [d]) c = if d = c then some L else none := by
  simp [stripSuffixChar]

lemma linesMap_nl : linesMap ['\n'] = [] := rfl

lemma joinNl_cons_cons (c : Char) (x : RStr) (ys : List RStr) :
    joinNl ((c :: x) :: ys) = c :: joinNl (x :: ys) := by
  cases ys <;> simp [joinNl]

lemma linesMap_cons (c : Char) (p : RStr) (hp : p ≠ []) (_hc : ¬ c = '\n')
    (hcr : ¬(c = '\r' ∧ p = ['\n'])) :
    linesMap (c :: p) = c :: linesMap p := by
  rcases List.eq_nil_or_concat' p with rfl | ⟨L, d, rfl⟩
  · exact absurd rfl hp
  by_cases hd : d = '\n'
  · subst hd
    rcases List.eq_nil_or_concat' L with rfl | ⟨L', d', rfl⟩
    · have hcrr : ¬ c = '\r' := fun h => hcr ⟨h, rfl⟩
      simp [linesMap, stripSuffixChar, hcrr]
    · by_cases hd' : d' = '\r' <;>
        simp [linesMap, stripSuffixChar, hd', List.reverse_append]
  · simp [linesMap, stripSuffixChar, hd, List.reverse_append]

lemma joinNl_rustLines :
    ∀ s : RStr, hasCRLF s = false → s.getLast? ≠ some '\n' →
      joinNl (rustLines s) = s := by
  intro s
  induction s with
  | nil => intro _ _; rfl
  | cons c rest ih =>
    intro hcrlf hlast
    by_cases hc : c = '\n'
    · subst hc
      cases rest with
      | nil => exact absurd rfl hlast
      | cons r rs =>
        obtain ⟨p, ps, hsplit, _, _⟩ := splitInclusiveNl_cons r rs
        have hrest : joinNl (linesMap p :: List.map linesMap ps)
            = r :: rs := by
          have := ih (hasCRLF_tail hcrlf)
            (by rwa [List.getLast?_cons_cons] at hlast)
          rwa [rustLines, hsplit, List.map_cons] at this
        rw [rustLines, splitInclusiveNl_cons_nl, List.map_cons, linesMap_nl,
          hsplit, List.map_cons,
          show joinNl ([] :: linesMap p :: List.map linesMap ps)
            = '\n' :: joinNl (linesMap p :: List.map linesMap ps) from rfl,
          hrest]
    · cases rest with
      | nil =>
        rw [rustLines, splitInclusiveNl_cons_ne c [] hc]
        simp [linesMap, stripSuffixChar, joinNl, hc]
      | cons r rs =>
        obtain ⟨p, ps, hsplit, hhead, hpne⟩ := splitInclusiveNl_cons r rs
        have hcr : ¬(c = '\r' ∧ p = ['\n']) := by
          rintro ⟨rfl, rfl⟩
          have hr : r = '\n' := by
            have := hhead
            simp only [List.head?] at this
            exact (Option.some.inj this).symm
          subst hr
          simp [hasCRLF] at hcrlf
        have hrest : joinNl (linesMap p :: List.map linesMap ps)
            = r :: rs := by
          have := ih (hasCRLF_tail hcrlf)
            (by rwa [List.getLast?_cons_cons] at hlast)
          rwa [rustLines, hsplit, List.map_cons] at this
        rw [rustLines, splitInclusiveNl_cons_ne c _ hc, hsplit]
        rw [show (match p :: ps with
              | [] => [[c]]
              | q :: qs => (c :: q) :: qs) = (c :: p) :: ps from rfl,
          List.map_cons, linesMap_cons c p hpne hc hcr, joinNl_cons_cons,
          hrest]

lemma filter_moves (ls : List Nat) :
    ((ls.flatMap fun l =>
        [AnimationStep.MoveCursor l 0, AnimationStep.Pause 50]).filter
      is_move_cursor)
      = ls.map fun l => AnimationStep.MoveCursor l 0 := by
  induction ls with
  | nil => rfl
  | cons x xs ih =>
    simp only [List.flatMap_cons, List.filter_append, ih]
    rfl

lemma flatMap_sep_joinWithSep (B : Nat → FileChange → List AnimationStep) :
    ∀ (l : List FileChange) (n k : Nat), k + 1 = n + l.length →
      ((List.enumFrom n l).flatMap fun ic =>
          B ic.1 ic.2
            ++ (if ic.1 < k then [AnimationStep.Pause 2000] else []))
        = joinWithSep [AnimationStep.Pause 2000]
            ((List.enumFrom n l).map fun ic => B ic.1 ic.2) := by
  intro l
  induction l with
  | nil => intro n k _; rfl
  | cons c rest ih =>
    intro n k hk
    rw [List.enumFrom_cons, List.flatMap_cons, List.map_cons]
    cases rest with
    | nil =>
      have : ¬ n < k := by simp at hk; omega
      simp [this, joinWithSep]
    | cons r rs =>
      have hlt : n < k := by simp [List.length_cons] at hk; omega
      have hk' : k + 1 = (n + 1) + (r :: rs).length := by
        simp [List.length_cons] at hk ⊢; omega
      rw [if_pos hlt, ih (n + 1) k hk', List.enumFrom_cons, List.map_cons,
        show joinWithSep [AnimationStep.Pause 2000]
            ((B n c) :: (B (n + 1) r)
              :: (List.enumFrom (n + 2) rs).map fun ic => B ic.1 ic.2)
          = B n c ++ [AnimationStep.Pause 2000]
            ++ joinWithSep [AnimationStep.Pause 2000]
              ((B (n + 1) r)
                :: (List.enumFrom (n + 2) rs).map fun ic => B ic.1 ic.2)
          from rfl]

lemma count1500_movement (f t : Nat) :
    (AnimationEngine.generate_cursor_movement f t).1.count
      (AnimationStep.Pause 1500) = 0 := by
  rw [List.count_eq_zero]
  unfold AnimationEngine.generate_cursor_movement
  split
  · simp
  · split <;>
    · intro hmem
      simp only [List.mem_append, List.mem_flatMap, List.mem_cons,
        List.mem_singleton] at hmem
      rcases hmem with ⟨l, _, h | h | h⟩ | h <;> simp_all

lemma count1500_hunk_foldl (lines : List LineChange) :
    ∀ acc : List AnimationStep × Nat × Nat × Nat,
      (lines.foldl AnimationEngine.hunk_line_step acc).1.count
          (AnimationStep.Pause 1500)
        = acc.1.count (AnimationStep.Pause 1500) := by
  induction lines with
  | nil => intro acc; rfl
  | cons lc rest ih =>
    intro acc
    rw [List.foldl_cons, ih]
    obtain ⟨steps, oldL, newL, cur⟩ := acc
    rcases lc with ⟨ty, content⟩
    cases ty <;>
      simp [AnimationEngine.hunk_line_step, List.count_append,
        List.count_cons, List.count_eq_zero, List.mem_map]

lemma count1500_hunk (hunk : DiffHunk) (start : Nat) :
    (AnimationEngine.generate_steps_for_hunk hunk start).1.count
      (AnimationStep.Pause 1500) = 0 := by
  unfold AnimationEngine.generate_steps_for_hunk
  rw [count1500_hunk_foldl]
  rfl

lemma count1500_file_foldl (hunks : List DiffHunk) :
    ∀ acc : List AnimationStep × Nat,
      ((hunks.foldl (fun (acc : List AnimationStep × Nat) hunk =>
          let mv := AnimationEngine.generate_cursor_movement acc.2
            hunk.old_start
          let hk := AnimationEngine.generate_steps_for_hunk hunk mv.2
          (acc.1 ++ mv.1 ++ hk.1 ++ [AnimationStep.Pause 1500], hk.2))
        acc).1.count (AnimationStep.Pause 1500))
        = acc.1.count (AnimationStep.Pause 1500) + hunks.length := by
  induction hunks with
  | nil => intro acc; rfl
  | cons hunk rest ih =>
    intro acc
    rw [List.foldl_cons, ih]
    simp [List.count_append, count1500_movement, count1500_hunk,
      List.count_cons]
    omega

lemma update_scroll_state (e : AnimationEngine) :
    (AnimationEngine.update_scroll e).state = e.state := by
  unfold AnimationEngine.update_scroll
  split <;> rfl

lemma execute_step_state {e : AnimationEngine} {step : AnimationStep}
    {e'' : AnimationEngine}
    (h : AnimationEngine.execute_step e step = some e'') :
    e''.state = e.state := by
  cases step <;>
    simp only [AnimationEngine.execute_step, Option.map_map,
      Option.map_eq_some', Option.some.injEq, Function.comp] at h <;>
    obtain ⟨a, ha, rfl⟩ := h <;>
    rw [update_scroll_state] <;>
    first
      | rfl
      | rw [← ha]

/-- C6 (corrected): constructing an `EditorBuffer` from a content string and
joining the buffer's lines with a newline reproduces the original content
when it is non-empty, contains no carriage-return/line-feed pair, and does
not end with a newline; constructing from the empty string yields exactly
one empty line.  (The unconditional non-empty claim fails on content with a
trailing newline, see the counterexample.) -/
theorem gitlogue_C6 :
    (∀ content : RStr, content ≠ [] → hasCRLF content = false →
      content.getLast? ≠ some '\n' →
      (EditorBuffer.from_content content).get_content = content) ∧
    (EditorBuffer.from_content []).lines = [[]] := by
  constructor
  · intro content hne hcrlf hlast
    show joinNl (if content = [] then [[]] else rustLines content) = content
    rw [if_neg hne]
    exact joinNl_rustLines content hcrlf hlast
  · rfl

/-- Witness for C6 at the concrete content `"ab\ncd"`. -/
theorem gitlogue_C6_witness :
    (EditorBuffer.from_content "ab\ncd".toList).get_content
      = "ab\ncd".toList :=
  gitlogue_C6.1 "ab\ncd".toList (by decide) (by decide) (by decide)

/-- Counterexample to C6 as stated: for the non-empty content `"a\n"` the
round trip yields `"a"`, not the original content (`str::lines` drops a
final line terminator). -/
theorem gitlogue_C6_cex :
    ¬ ((EditorBuffer.from_content ['a', '\n']).get_content
        = ['a', '\n']) := by decide

/-- C7 (confirmed): the buffer's line list is never empty — both
constructors produce at least one line, all four mutation operations
preserve non-emptiness (for the two fallible ones, whenever they return a
buffer at all), and deleting the only line of a one-line buffer leaves
exactly one empty line. -/
theorem gitlogue_C7 :
    (EditorBuffer.new.lines ≠ []) ∧
    (∀ content : RStr, (EditorBuffer.from_content content).lines ≠ []) ∧
    (∀ (b : EditorBuffer) (line col : Nat) (ch : Char)
        (b' : EditorBuffer), b.lines ≠ [] →
      b.insert_char line col ch = some b' → b'.lines ≠ []) ∧
    (∀ (b : EditorBuffer) (line col : Nat) (b' : EditorBuffer),
      b.lines ≠ [] → b.delete_char line col = some b' →
      b'.lines ≠ []) ∧
    (∀ (b : EditorBuffer) (line : Nat) (content : RStr),
      b.lines ≠ [] → (b.insert_line line content).lines ≠ []) ∧
    (∀ (b : EditorBuffer) (line : Nat),
      (b.delete_line line).lines ≠ []) ∧
    ((EditorBuffer.from_content ['x']).delete_line 0).lines = [[]] := by
  refine ⟨by decide, ?_, ?_, ?_, ?_, ?_, by decide⟩
  · intro content
    show (if content = [] then [[]] else rustLines content) ≠ []
    rcases content with _ | ⟨c, rest⟩
    · simp
    · rw [if_neg (by simp)]
      obtain ⟨p, ps, hsplit, -, -⟩ := splitInclusiveNl_cons c rest
      simp [rustLines, hsplit]
  · intro b line col ch b' hb h
    obtain ⟨l, -, rfl⟩ := Option.map_eq_some'.1 h
    show (if b.lines.length ≤ line then
        b.lines ++ List.replicate (line + 1 - b.lines.length) []
      else b.lines).set line l ≠ []
    rw [← List.length_pos_iff_ne_nil, List.length_set]
    split
    · next hle =>
      rw [List.length_append, List.length_replicate]
      omega
    · rwa [List.length_pos_iff_ne_nil]
  · intro b line col b' hb h
    unfold EditorBuffer.delete_char at h
    split_ifs at h
    · obtain ⟨l, -, rfl⟩ := Option.map_eq_some'.1 h
      show b.lines.set line l ≠ []
      rw [← List.length_pos_iff_ne_nil, List.length_set,
        List.length_pos_iff_ne_nil]
      exact hb
    · rw [Option.some.injEq] at h; rw [← h]; exact hb
    · rw [Option.some.injEq] at h; rw [← h]; exact hb
  · intro b line content hb
    show listInsertAt _ line content ≠ []
    simp [listInsertAt]
  · intro b line
    show (if (if line < b.lines.length then b.lines.eraseIdx line
        else b.lines) = [] then [[]]
      else (if line < b.lines.length then b.lines.eraseIdx line
        else b.lines)) ≠ []
    generalize (if line < b.lines.length then b.lines.eraseIdx line
      else b.lines) = ls
    split
    · simp
    · assumption

/-- Witness for C7 at concrete buffers: an in-bounds `insert_line` and a
successful `insert_char` both preserve non-emptiness. -/
theorem gitlogue_C7_witness :
    ((EditorBuffer.from_content ['a']).insert_line 0 ['b']).lines ≠ [] ∧
    (⟨[['b', 'a']], 0, 0, 0⟩ : EditorBuffer).lines ≠ [] :=
  ⟨gitlogue_C7.2.2.2.2.1 (EditorBuffer.from_content ['a']) 0 ['b']
      (by decide),
   gitlogue_C7.2.2.1 (EditorBuffer.from_content ['a']) 0 0 'b'
      ⟨[['b', 'a']], 0, 0, 0⟩ (by decide) (by decide)⟩

/-- C3 (confirmed): cursor movement emits nothing when source and target
lines are equal; otherwise it emits, for each visited line toward the
target (ascending when moving down, descending when moving up, including
the final line), a move-cursor step to column 0 followed by a 50 ms pause,
then one trailing 300 ms pause; movement 2 → 5 yields exactly the
move-cursor steps for lines 3, 4, 5 and movement 5 → 2 exactly those for
lines 4, 3, 2, in order. -/
theorem gitlogue_C3 :
    (∀ f t : Nat, (AnimationEngine.generate_cursor_movement f t).1
      = if f = t then []
        else ((visited_lines f t).flatMap fun l =>
            [AnimationStep.MoveCursor l 0, AnimationStep.Pause 50])
          ++ [AnimationStep.Pause 300]) ∧
    (∀ f t : Nat,
      (AnimationEngine.generate_cursor_movement f t).1.filter
          is_move_cursor
        = (visited_lines f t).map fun l => AnimationStep.MoveCursor l 0) ∧
    ((AnimationEngine.generate_cursor_movement 2 5).1
      = [AnimationStep.MoveCursor 3 0, AnimationStep.Pause 50,
         AnimationStep.MoveCursor 4 0, AnimationStep.Pause 50,
         AnimationStep.MoveCursor 5 0, AnimationStep.Pause 50,
         AnimationStep.Pause 300]) ∧
    ((AnimationEngine.generate_cursor_movement 5 2).1
      = [AnimationStep.MoveCursor 4 0, AnimationStep.Pause 50,
         AnimationStep.MoveCursor 3 0, AnimationStep.Pause 50,
         AnimationStep.MoveCursor 2 0, AnimationStep.Pause 50,
         AnimationStep.Pause 300]) := by
  refine ⟨?_, ?_, by decide, by decide⟩
  · intro f t
    unfold AnimationEngine.generate_cursor_movement visited_lines
    by_cases hft : f = t
    · simp [hft]
    · by_cases hlt : f < t <;> simp [hft, hlt]
  · intro f t
    unfold AnimationEngine.generate_cursor_movement visited_lines
    by_cases hft : f = t
    · subst hft
      simp [is_move_cursor]
    · by_cases hlt : f < t <;>
        simp [hft, hlt, List.filter_append, filter_moves, is_move_cursor]

/-- C4 (corrected): for every *positive* viewport height, the recomputed
scroll offset is 0 near the top, `total_lines - viewport_height` (truncated
at 0) near the bottom, and `cursor_line - viewport_height / 2` otherwise;
with viewport 20 and 100 lines, cursors 5, 50, 95 give offsets 0, 40, 80.
(With viewport height 0 the code leaves the previous offset untouched, see
the counterexample.) -/
theorem gitlogue_C4 :
    (∀ e : AnimationEngine, 0 < e.viewport_height →
      e.update_scroll.buffer.scroll_offset
        = if e.buffer.cursor_line < e.viewport_height / 2 then 0
          else if e.buffer.lines.length
              ≤ e.buffer.cursor_line + e.viewport_height / 2 then
            e.buffer.lines.length - e.viewport_height
          else e.buffer.cursor_line - e.viewport_height / 2) ∧
    (c4_engine 5).update_scroll.buffer.scroll_offset = 0 ∧
    (c4_engine 50).update_scroll.buffer.scroll_offset = 40 ∧
    (c4_engine 95).update_scroll.buffer.scroll_offset = 80 := by
  refine ⟨?_, by decide, by decide, by decide⟩
  intro e h
  unfold AnimationEngine.update_scroll
  rw [if_neg (Nat.pos_iff_ne_zero.mp h)]

/-- Witness for C4 at the concrete engine with cursor 50 (viewport 20, 100
lines). -/
theorem gitlogue_C4_witness :
    (c4_engine 50).update_scroll.buffer.scroll_offset
      = if (c4_engine 50).buffer.cursor_line
            < (c4_engine 50).viewport_height / 2 then 0
        else if (c4_engine 50).buffer.lines.length
            ≤ (c4_engine 50).buffer.cursor_line
              + (c4_engine 50).viewport_height / 2 then
          (c4_engine 50).buffer.lines.length
            - (c4_engine 50).viewport_height
        else (c4_engine 50).buffer.cursor_line
          - (c4_engine 50).viewport_height / 2 :=
  gitlogue_C4.1 (c4_engine 50) (by decide)

/-- Counterexample to C4 as stated ("for every viewport height"): with
viewport height 0 the code returns early and keeps the stale offset 5,
while the claimed formula yields 0. -/
theorem gitlogue_C4_cex :
    ¬ (c4_cex_engine.update_scroll.buffer.scroll_offset
        = if c4_cex_engine.buffer.cursor_line
              < c4_cex_engine.viewport_height / 2 then 0
          else if c4_cex_engine.buffer.lines.length
              ≤ c4_cex_engine.buffer.cursor_line
                + c4_cex_engine.viewport_height / 2 then
            c4_cex_engine.buffer.lines.length
              - c4_cex_engine.viewport_height
          else c4_cex_engine.buffer.cursor_line
            - c4_cex_engine.viewport_height / 2) := by decide

/-- C1 (corrected): `load_commit` builds, per file in order, a
switch-to-file step carrying the file's starting content then a 1000 ms
pause then the file's hunk steps (with one 1500 ms pause per hunk), with a
2000 ms pause between consecutive files but not after the last, and one
final 3000 ms pause; it sets the state to `Playing`, resets the step cursor
and active file index to 0, and initializes the buffer to the first file's
starting content — but when the commit has no file changes it leaves the
buffer unchanged rather than resetting it to a single empty line (see the
counterexample). -/
theorem gitlogue_C1 :
    (∀ (e : AnimationEngine) (m : CommitMetadata),
      (e.load_commit m).steps = claimed_steps m) ∧
    (∀ (e : AnimationEngine) (m : CommitMetadata),
      (e.load_commit m).state = AnimationState.Playing
        ∧ (e.load_commit m).current_step = 0
        ∧ (e.load_commit m).current_file_index = 0) ∧
    (∀ (e : AnimationEngine) (m : CommitMetadata),
      (e.load_commit m).buffer
        = match m.changes.head? with
          | some change =>
            match change.old_content with
            | some old_content => EditorBuffer.from_content old_content
            | none => EditorBuffer.new
          | none => e.buffer) ∧
    (∀ change : FileChange,
      (AnimationEngine.generate_steps_for_file change).count
        (AnimationStep.Pause 1500) = change.hunks.length) := by
  refine ⟨?_, fun e m => ⟨rfl, rfl, rfl⟩, fun e m => rfl, ?_⟩
  · intro e m
    show AnimationEngine.load_commit_steps m = claimed_steps m
    unfold AnimationEngine.load_commit_steps claimed_steps file_block
    rcases m with ⟨changes⟩
    rcases changes with _ | ⟨c, rest⟩
    · rfl
    · have h := flatMap_sep_joinWithSep
        (fun i fc => AnimationStep.SwitchFile i (fc.old_content.getD [])
          :: AnimationStep.Pause 1000
          :: AnimationEngine.generate_steps_for_file fc)
        (c :: rest) 0 ((c :: rest).length - 1) (by simp)
      simp only [List.enum] at *
      rw [h]
  · intro change
    unfold AnimationEngine.generate_steps_for_file
    rw [count1500_file_foldl]
    simp

/-- Counterexample to C1 as stated: loading a commit with no file changes
does not reset the buffer to a single empty line — it leaves the previous
buffer (here containing the line `"x"`) in place. -/
theorem gitlogue_C1_cex :
    ¬ ((c1_cex_engine.load_commit ⟨[]⟩).buffer.lines = [[]]) := by decide

/-- C2 (confirmed): hunk generation, per classified line, emits for a
deletion a delete-line step at `old_line` plus a 300 ms pause, moves the
cursor to `old_line`, and advances neither line cursor; for an addition it
emits an insert-line step at `new_line` with empty content, one
insert-character step per character at column indices 0, 1, … targeting
`new_line`, moves the cursor to `new_line`, advances both line cursors, and
emits a 200 ms pause; for the `"hello"` commit the step sequence holds
exactly 5 insert-character steps and full playback finishes with a buffer
line `"hello"`. -/
theorem gitlogue_C2 :
    (∀ (steps : List AnimationStep) (oldL newL cur : Nat)
        (content : RStr),
      AnimationEngine.hunk_line_step (steps, oldL, newL, cur)
          ⟨LineChangeType.Deletion, content⟩
        = (steps ++ [AnimationStep.DeleteLine oldL,
            AnimationStep.Pause 300], oldL, newL, oldL)) ∧
    (∀ (steps : List AnimationStep) (oldL newL cur : Nat)
        (content : RStr),
      AnimationEngine.hunk_line_step (steps, oldL, newL, cur)
          ⟨LineChangeType.Addition, content⟩
        = (steps ++ AnimationStep.InsertLine newL []
            :: (((List.range content.length).zip content).map fun ic =>
                AnimationStep.InsertChar newL ic.1 ic.2)
            ++ [AnimationStep.Pause 200], oldL + 1, newL + 1, newL)) ∧
    (((AnimationEngine.new 50).load_commit m_hello).steps.filter
        is_insert_char).length = 5 ∧
    (AnimationEngine.run_ticks 12
        ((AnimationEngine.new 50).load_commit m_hello)).map
      AnimationEngine.is_finished = some true ∧
    (AnimationEngine.run_ticks 12
        ((AnimationEngine.new 50).load_commit m_hello)).map
      (fun e => decide ("hello".toList ∈ e.buffer.lines))
      = some true := by
  refine ⟨fun steps oldL newL cur content => rfl, ?_,
    by decide, by decide, by decide⟩
  intro steps oldL newL cur content
  simp [AnimationEngine.hunk_line_step, List.enum_eq_zip_range]

/-- C5 (confirmed): a fresh engine is `Idle`; `load_commit` yields
`Playing`; a tick turns `Playing` into `Finished` exactly when the step
cursor has reached the end of the step sequence; a tick never enters or
leaves `Paused`; `is_finished` holds iff the state is `Finished`; and a
tick on a `Finished` engine leaves it unchanged. -/
theorem gitlogue_C5 :
    (∀ speed : Nat,
      (AnimationEngine.new speed).state = AnimationState.Idle) ∧
    (∀ (e : AnimationEngine) (m : CommitMetadata),
      (e.load_commit m).state = AnimationState.Playing) ∧
    (∀ e e' : AnimationEngine, e.tick = some e' →
      (e'.state = AnimationState.Finished
        ↔ (e.state = AnimationState.Finished
            ∨ (e.state = AnimationState.Playing
                ∧ e.steps.length ≤ e.current_step)))) ∧
    (∀ e e' : AnimationEngine, e.tick = some e' →
      (e'.state = AnimationState.Paused
        ↔ e.state = AnimationState.Paused)) ∧
    (∀ e : AnimationEngine,
      e.is_finished = true ↔ e.state = AnimationState.Finished) ∧
    (∀ e : AnimationEngine, e.state = AnimationState.Finished →
      e.tick = some e) := by
  refine ⟨fun _ => rfl, fun _ _ => rfl, ?_, ?_, ?_, ?_⟩
  · intro e e' h
    unfold AnimationEngine.tick at h
    by_cases hs : e.state = AnimationState.Playing
    · rw [if_neg (by simp [hs])] at h
      cases hidx : e.steps[e.current_step]? with
      | none =>
        rw [hidx, Option.some.injEq] at h
        subst h
        exact iff_of_true rfl
          (Or.inr ⟨hs, List.getElem?_eq_none_iff.1 hidx⟩)
      | some st =>
        rw [hidx] at h
        obtain ⟨e'', he'', rfl⟩ := Option.map_eq_some'.1 h
        have hst : e''.state = e.state := execute_step_state he''
        have hlt : e.current_step < e.steps.length := by
          rcases Nat.lt_or_ge e.current_step e.steps.length with h' | h'
          · exact h'
          · rw [List.getElem?_eq_none h'] at hidx; cases hidx
        refine iff_of_false ?_ ?_
        · show e''.state = AnimationState.Finished → False
          rw [hst, hs]; intro hcon; cases hcon
        · rintro (hf | ⟨-, hle⟩)
          · rw [hs] at hf; cases hf
          · omega
    · rw [if_pos hs, Option.some.injEq] at h
      subst h
      constructor
      · exact Or.inl
      · rintro (hf | ⟨hp, -⟩)
        · exact hf
        · exact absurd hp hs
  · intro e e' h
    unfold AnimationEngine.tick at h
    by_cases hs : e.state = AnimationState.Playing
    · rw [if_neg (by simp [hs])] at h
      cases hidx : e.steps[e.current_step]? with
      | none =>
        rw [hidx, Option.some.injEq] at h
        subst h
        refine iff_of_false (fun hcon => by cases hcon) ?_
        rw [hs]; intro hcon; cases hcon
      | some st =>
        rw [hidx] at h
        obtain ⟨e'', he'', rfl⟩ := Option.map_eq_some'.1 h
        have hst : e''.state = e.state := execute_step_state he''
        show e''.state = AnimationState.Paused ↔ _
        rw [hst]
    · rw [if_pos hs, Option.some.injEq] at h
      subst h
      exact Iff.rfl
  · intro e
    simp [AnimationEngine.is_finished]
  · intro e h
    unfold AnimationEngine.tick
    rw [if_pos (by simp [h])]

/-- Witness for C5: a tick on a concrete `Finished` engine returns it
unchanged. -/
theorem gitlogue_C5_witness : c5_fin_engine.tick = some c5_fin_engine :=
  gitlogue_C5.2.2.2.2.2 c5_fin_engine rfl

/-- C8 (code bug): step execution is *not* total.  `insert_char` panics
(modelled as `none`) when the column is past the line's byte length or
inside a multi-byte character, `delete_char` panics on a non-boundary
column, and the engine's own generated steps hit this on a commit adding a
non-ASCII line, aborting playback mid-demonstration. -/
theorem gitlogue_C8_panic :
    (EditorBuffer.from_content "ab".toList).insert_char 0 5 'x' = none ∧
    (EditorBuffer.from_content "é".toList).insert_char 0 1 'a' = none ∧
    (EditorBuffer.from_content "é".toList).delete_char 0 1 = none ∧
    AnimationEngine.run_ticks 5
      ((AnimationEngine.new 50).load_commit m_panic) = none := by decide

lemma takeWhile_append_all {p : Char → Bool} :
    ∀ l1 l2 : List Char, (∀ a ∈ l1, p a = true) →
      (l1 ++ l2).takeWhile p = l1 ++ l2.takeWhile p := by
  intro l1
  induction l1 with
  | nil => intro l2 _; rfl
  | cons c cs ih =>
    intro l2 hall
    rw [List.cons_append, List.takeWhile_cons,
      if_pos (hall c (List.mem_cons_self c cs)), List.cons_append, ih l2
        fun a ha => hall a (List.mem_cons_of_mem c ha)]

/-- C9 (confirmed): a capture's base name is the portion before the first
`'.'` and is looked up in the fixed table; names whose base name is not in
the table — the skip set included — produce no span; `"function.call"`
classifies as `Function` and `"embedded"` produces no span. -/
theorem gitlogue_C9 :
    (∀ (n1 n2 : RStr) (s e : Nat), '.' ∉ n1 →
      capture_span (n1 ++ '.' :: n2) s e
        = (token_type_for_base n1).map fun t =>
            { start := s, stop := e, token_type := t }) ∧
    (∀ n ∈ skip_captures, ∀ s e : Nat, capture_span n s e = none) ∧
    capture_span "function.call".toList 0 5
      = some { start := 0, stop := 5,
               token_type := TokenType.Function } ∧
    capture_span "embedded".toList 3 9 = none := by
  refine ⟨?_, ?_, by decide, by decide⟩
  · intro n1 n2 s e hdot
    unfold capture_span base_name
    rw [takeWhile_append_all n1 ('.' :: n2)
        (fun a ha => by
          simp only [decide_eq_true_eq]
          exact fun hc => hdot (hc ▸ ha)),
      List.takeWhile_cons, if_neg (by simp), List.append_nil]
  · intro n hn s e
    fin_cases hn <;> rfl

/-- Witness for C9: the base-name rule applied to the concrete dotted name
`"function.call"`, and the skip rule applied to `"spell"`. -/
theorem gitlogue_C9_witness :
    (capture_span ("function".toList ++ '.' :: "call".toList) 0 5
      = (token_type_for_base "function".toList).map fun t =>
          { start := 0, stop := 5, token_type := t }) ∧
    capture_span "spell".toList 1 2 = none :=
  ⟨gitlogue_C9.1 "function".toList "call".toList 0 5 (by decide),
   gitlogue_C9.2.1 "spell".toList (by decide) 1 2⟩

lemma insert_line_extend (b : EditorBuffer) (line : Nat) (content : RStr)
    (h : b.lines.length < line) :
    (b.insert_line line content).lines
      = b.lines ++ List.replicate (line - b.lines.length) []
        ++ [content] := by
  show listInsertAt (if b.lines.length < line then
      b.lines ++ List.replicate (line - b.lines.length) [] else b.lines)
    line content
    = b.lines ++ List.replicate (line - b.lines.length) [] ++ [content]
  rw [if_pos h]
  unfold listInsertAt
  have hlen : (b.lines ++ List.replicate (line - b.lines.length)
      (show RStr from [])).length = line := by
    simp
    omega
  rw [List.take_of_length_le (le_of_eq hlen),
    List.drop_eq_nil_of_le (le_of_eq hlen)]

lemma insert_char_extend (b : EditorBuffer) (line : Nat) (ch : Char)
    (h : b.lines.length ≤ line) :
    b.insert_char line 0 ch
      = some { b with lines := b.lines
          ++ List.replicate (line - b.lines.length) [] ++ [[ch]] } := by
  have hgd : (b.lines ++ List.replicate
      (line + 1 - b.lines.length) ([] : RStr)).getD line [] = [] := by
    rw [List.getD, List.get?_eq_getElem?, List.getElem?_append_right h,
      List.getElem?_replicate]
    rw [if_pos (by omega)]
    rfl
  simp only [EditorBuffer.insert_char, if_pos h]
  rw [hgd]
  rw [show insertAtByte [] 0 ch = some [ch] from rfl, Option.map_some']
  congr 1
  show { b with lines := _ } = { b with lines := _ }
  congr 1
  rw [show line + 1 - b.lines.length = (line - b.lines.length) + 1 by omega,
    List.replicate_succ',
    show b.lines ++ (List.replicate (line - b.lines.length)
        ([] : RStr) ++ [[]])
      = (b.lines ++ List.replicate (line - b.lines.length) []) ++ [[]]
      from (List.append_assoc ..).symm,
    List.set_append_right _ _ (by simp; omega)]
  have hz : line - (b.lines ++ List.replicate (line - b.lines.length)
      ([] : RStr)).length = 0 := by simp; omega
  rw [hz]
  rfl

/-- C10 (confirmed): inserting a line at an index strictly beyond the
current length first pads the buffer with empty lines up to that index and
then appends the content there (so the line at that index is the content);
inserting a character at a line at or beyond the current length pads the
buffer with empty lines to length `line + 1` first — out-of-range inserts
pad rather than being ignored. -/
theorem gitlogue_C10 :
    (∀ (b : EditorBuffer) (line : Nat) (content : RStr),
      b.lines.length < line →
      (b.insert_line line content).lines
        = b.lines ++ List.replicate (line - b.lines.length) []
          ++ [content]) ∧
    (∀ (b : EditorBuffer) (line : Nat) (content : RStr),
      b.lines.length < line →
      (b.insert_line line content).lines[line]? = some content) ∧
    (∀ (b : EditorBuffer) (line : Nat) (ch : Char),
      b.lines.length ≤ line →
      b.insert_char line 0 ch
        = some { b with lines := b.lines
            ++ List.replicate (line - b.lines.length) [] ++ [[ch]] }) ∧
    (∀ (b : EditorBuffer) (line col : Nat) (ch : Char)
        (b' : EditorBuffer), b.lines.length ≤ line →
      b.insert_char line col ch = some b' →
      b'.lines.length = line + 1) := by
  refine ⟨insert_line_extend, ?_, insert_char_extend, ?_⟩
  · intro b line content h
    rw [insert_line_extend b line content h]
    have hlen : (b.lines ++ List.replicate (line - b.lines.length)
        ([] : RStr)).length = line := by
      simp
      omega
    rw [List.getElem?_append_right (le_of_eq hlen), hlen, Nat.sub_self]
    rfl
  · intro b line col ch b' h hb
    obtain ⟨l, -, rfl⟩ := Option.map_eq_some'.1 hb
    show ((if b.lines.length ≤ line then b.lines
        ++ List.replicate (line + 1 - b.lines.length) []
      else b.lines).set line l).length = line + 1
    rw [if_pos h, List.length_set, List.length_append,
      List.length_replicate]
    omega

/-- Witness for C10 at concrete buffers: the one-line buffer `["a"]` padded
out to index 3 by `insert_line` and `insert_char`. -/
theorem gitlogue_C10_witness :
    ((EditorBuffer.from_content ['a']).insert_line 3 ['z']).lines
      = (EditorBuffer.from_content ['a']).lines
        ++ List.replicate
          (3 - (EditorBuffer.from_content ['a']).lines.length) []
        ++ [['z']] ∧
    (EditorBuffer.from_content ['a']).insert_char 3 0 'z'
      = some { EditorBuffer.from_content ['a'] with
          lines := (EditorBuffer.from_content ['a']).lines
            ++ List.replicate
              (3 - (EditorBuffer.from_content ['a']).lines.length) []
            ++ [['z']] } :=
  ⟨gitlogue_C10.1 (EditorBuffer.from_content ['a']) 3 ['z'] (by decide),
   gitlogue_C10.2.2.1 (EditorBuffer.from_content ['a']) 3 'z'
     (by decide)⟩
